import Mathlib

/-!
Verification of the Incremental Clone Aggregator of `track_clones.py`.

Python `dict`s (insertion-ordered, unique string keys) are embedded as
association lists `List (String × α)` in insertion order:
`dlookup` is `d[k]` / `k in d` (first matching key), `pyInsert` is
`d[k] = v` (update in place if the key exists, else append at the end).
Calendar dates are the `YYYY-MM-DD` strings the script uses as keys, and
the pruning comparison `day >= cutoff_date` is the same lexicographic
string comparison Python performs. Counts are natural numbers.
-/

/-- One day's observed activity, the value stored under a date key both in a
report's `daily_breakdown` and in a repository's `daily_records` ledger. -/
structure DayStats where
  count : Nat
  uniques : Nat
deriving DecidableEq, Repr

/-- Per-repository cumulative state, the value of `cumulative_totals[repo_name]`
(`track_clones.py` lines 141-146, 161, 174-179).  `last_updated` is `none`
between initialization and the first end-of-loop assignment. -/
structure RepoAgg where
  total_clones : Nat
  total_unique : Nat
  first_tracked : String
  last_updated : Option String
deriving DecidableEq, Repr

/-- One fetch cycle's result for one repository (`repo_data`, lines 82-89). -/
structure Report where
  timestamp : String
  date : String
  repo_name : String
  period_clones : Nat
  period_unique : Nat
  daily_breakdown : List (String × DayStats)
deriving DecidableEq, Repr

/-- The persisted aggregation state: `cumulative_totals` and `daily_records`
as loaded by `load_historical_data` and returned by
`calculate_cumulative_totals`. -/
structure HistState where
  cumulative_totals : List (String × RepoAgg)
  daily_records : List (String × List (String × DayStats))
deriving DecidableEq, Repr

/-- Python `d[k]` / `k in d` on an insertion-ordered dict: the value at the
first (unique, for genuine dicts) occurrence of key `k`. -/
def dlookup (k : String) : List (String × α) → Option α
  | [] => none
  | (k', v) :: rest => if k' = k then some v else dlookup k rest

/-- Python `d[k] = v`: replace in place if `k` is present, else append. -/
def pyInsert (k : String) (v : α) : List (String × α) → List (String × α)
  | [] => [(k, v)]
  | (k', v') :: rest => if k' = k then (k, v) :: rest else (k', v') :: pyInsert k v rest

/-- The fresh `RepoAgg` created when a repository is first observed
(lines 142-146): `{"total_clones": 0, "total_unique": 0, "first_tracked":
repo["timestamp"]}` — no `last_updated` key yet. -/
def initAgg (timestamp : String) : RepoAgg :=
  { total_clones := 0, total_unique := 0, first_tracked := timestamp, last_updated := none }

/-- The inner loop over `repo["daily_breakdown"].items()` (lines 152-163):
a day absent from the ledger is inserted and its `count` added to the
running `total_clones`; a day already present is skipped entirely. -/
def processDays : List (String × DayStats) → List (String × DayStats) → Nat →
    Nat × List (String × DayStats)
  | [], led, tot => (tot, led)
  | (d, s) :: rest, led, tot =>
    if (dlookup d led).isSome then
      processDays rest led tot
    else
      processDays rest (led ++ [(d, s)]) (tot + s.count)

/-- Lexicographic order on lists of characters by code point — the comparison
Python performs between two `str` values. -/
def charListLe : List Char → List Char → Bool
  | [], _ => true
  | _ :: _, [] => false
  | c :: cs, d :: ds =>
    if c.toNat < d.toNat then true
    else if d.toNat < c.toNat then false
    else charListLe cs ds

/-- Python's `a <= b` on strings: lexicographic by code point. -/
def strLe (a b : String) : Bool := charListLe a.data b.data

/-- The ledger cleanup (lines 165-171): keep exactly the entries with
`day >= cutoff_date` (string comparison, `cutoff_date = now - 30 days`). -/
def pruneLedger (cutoff : String) (led : List (String × DayStats)) :
    List (String × DayStats) :=
  led.filter fun p => strLe cutoff p.1

/-- The body of the `for repo in clone_data` loop for one report, expressed as
the transformation of the one cumulative entry and one ledger the loop body
reads and writes (lines 138-179): resolve-or-create the aggregate and ledger,
fold the daily breakdown, prune the ledger, then take the `max` for
`total_unique` and stamp `last_updated`. -/
def stepRepo (r : Report) (cutoff : String) (agg? : Option RepoAgg)
    (led? : Option (List (String × DayStats))) :
    RepoAgg × List (String × DayStats) :=
  let agg := agg?.getD (initAgg r.timestamp)
  let led := led?.getD []
  let res := processDays r.daily_breakdown led agg.total_clones
  ({ agg with
      total_clones := res.1,
      total_unique := max agg.total_unique r.period_unique,
      last_updated := some r.timestamp },
   pruneLedger cutoff res.2)

/-- One iteration of the `for repo in clone_data` loop on the full state. -/
def processReport (cutoff : String) (st : HistState) (r : Report) : HistState :=
  let res := stepRepo r cutoff (dlookup r.repo_name st.cumulative_totals)
    (dlookup r.repo_name st.daily_records)
  { cumulative_totals := pyInsert r.repo_name res.1 st.cumulative_totals,
    daily_records := pyInsert r.repo_name res.2 st.daily_records }

/-- `calculate_cumulative_totals(clone_data, historical_data, today)`
(lines 132-181).  `today` is accepted and unused, as in the source; the
pruning cutoff `(datetime.now() - timedelta(days=30)).strftime("%Y-%m-%d")`
is passed explicitly as `cutoff`. -/
def calculate_cumulative_totals (clone_data : List Report) (historical : HistState)
    (today : String) (cutoff : String) : HistState :=
  clone_data.foldl (processReport cutoff) historical

/-- Sum of the `count` fields of a list of day entries. -/
def sumCounts (l : List (String × DayStats)) : Nat :=
  (l.map fun p => p.2.count).sum

/-- The days of a breakdown not yet present in a ledger — exactly the days the
inner loop adds. -/
def newDays (bd led : List (String × DayStats)) : List (String × DayStats) :=
  bd.filter fun p => (dlookup p.1 led).isNone

/-- An element of `cumulative_stats.top_repositories` (lines 197-208). -/
structure CumTopEntry where
  name : String
  total_clones : Nat
  total_unique : Nat
deriving DecidableEq, Repr

/-- An element of `period_stats.top_repositories` (lines 211-222). -/
structure PeriodTopEntry where
  name : String
  period_clones : Nat
  period_unique : Nat
deriving DecidableEq, Repr

/-- The shape shared by `period_stats` and `cumulative_stats` (lines 227-246). -/
structure StatsBlock (entry : Type) where
  description : String
  total_clones : Nat
  total_unique_clones : Nat
  repositories_tracked : Nat
  repositories_with_clones : Nat
  top_repositories : List entry
deriving DecidableEq, Repr

/-- The summary JSON object written by `update_clone_summary` (lines 224-249). -/
structure Summary where
  last_updated : String
  last_run_date : String
  period_stats : StatsBlock PeriodTopEntry
  cumulative_stats : StatsBlock CumTopEntry
  cumulative_totals : List (String × RepoAgg)
  daily_records : List (String × List (String × DayStats))
deriving DecidableEq, Repr

/-- `sorted([...], key=lambda x: x["total_clones"], reverse=True)[:10]`
(lines 197-208).  CPython's sort is stable and `reverse=True` keeps ties in
original order, which a stable merge sort with comparison
`b.total_clones <= a.total_clones` reproduces. -/
def top_clones_cumulative (cumulative_totals : List (String × RepoAgg)) :
    List CumTopEntry :=
  ((cumulative_totals.map fun p =>
      CumTopEntry.mk p.1 p.2.total_clones p.2.total_unique).mergeSort
    fun a b => decide (b.total_clones ≤ a.total_clones)).take 10

/-- `sorted([...], key=lambda x: x["period_clones"], reverse=True)[:10]`
(lines 211-222), same stable descending sort. -/
def top_clones_period (clone_data : List Report) : List PeriodTopEntry :=
  ((clone_data.map fun r =>
      PeriodTopEntry.mk r.repo_name r.period_clones r.period_unique).mergeSort
    fun a b => decide (b.period_clones ≤ a.period_clones)).take 10

/-- The summary object built by `update_clone_summary` (lines 184-249),
up to the point where it is serialized to `clones_summary.json`. -/
def update_clone_summary (clone_data : List Report) (timestamp today : String)
    (cumulative_totals : List (String × RepoAgg))
    (daily_records : List (String × List (String × DayStats))) : Summary :=
  { last_updated := timestamp,
    last_run_date := today,
    period_stats :=
      { description := "Clone statistics for the last 14 days",
        total_clones := (clone_data.map Report.period_clones).sum,
        total_unique_clones := (clone_data.map Report.period_unique).sum,
        repositories_tracked := clone_data.length,
        repositories_with_clones :=
          (clone_data.filter fun r => decide (0 < r.period_clones)).length,
        top_repositories := top_clones_period clone_data },
    cumulative_stats :=
      { description := "All-time cumulative clone statistics (since tracking began)",
        total_clones := (cumulative_totals.map fun p => p.2.total_clones).sum,
        total_unique_clones := (cumulative_totals.map fun p => p.2.total_unique).sum,
        repositories_tracked := cumulative_totals.length,
        repositories_with_clones :=
          (cumulative_totals.filter fun p => decide (0 < p.2.total_clones)).length,
        top_repositories := top_clones_cumulative cumulative_totals },
    cumulative_totals := cumulative_totals,
    daily_records := daily_records }

/-- A persisted-file mutation performed by `main` after the fetch. -/
inductive FileWrite
  | csvAppend (rows : List Report)
  | summaryOverwrite (s : Summary)
deriving DecidableEq

/-- The post-fetch portion of `main` (lines 291-308): Python's
`if clone_data:` is list truthiness, false exactly on the empty batch.  On a
nonempty batch it appends to the CSV, reconciles, and overwrites the summary
JSON; on an empty batch it performs no writes and surfaces a warning (the
returned `Bool`), and in both branches control flow returns normally. -/
def mainCycle (clone_data : List Report) (historical : HistState)
    (timestamp today cutoff : String) : List FileWrite × Bool :=
  if clone_data.isEmpty then
    ([], true)
  else
    let st := calculate_cumulative_totals clone_data historical today cutoff
    ([FileWrite.csvAppend clone_data,
      FileWrite.summaryOverwrite
        (update_clone_summary clone_data timestamp today
          st.cumulative_totals st.daily_records)],
     false)

/-- Erase every entry for date `d` from a report's daily breakdown: the
comparison run in which `d` is never reported at all. -/
def eraseDate (d : String) (r : Report) : Report :=
  { r with daily_breakdown := r.daily_breakdown.filter fun p => !(p.1 == d) }

/-- A sequence of reconciliation cycles for one repository: each cycle supplies
that cycle's report together with its pruning cutoff (`now - 30 days` at that
cycle), and the per-repository state is threaded through `stepRepo` exactly as
`calculate_cumulative_totals` does for the entry keyed by the repository. -/
def runCycles : List (Report × String) → RepoAgg × List (String × DayStats) →
    RepoAgg × List (String × DayStats)
  | [], st => st
  | (r, cutoff) :: rest, st => runCycles rest (stepRepo r cutoff (some st.1) (some st.2))

/-- Descending-by-key order on index-tagged elements, ties broken by the
original position: the specification of a stable descending sort. -/
def keyIdxDescRel (key : α → Nat) (a b : Nat × α) : Prop :=
  key b.2 < key a.2 ∨ (key a.2 = key b.2 ∧ a.1 ≤ b.1)

instance (key : α → Nat) : DecidableRel (keyIdxDescRel key) := fun a b =>
  inferInstanceAs (Decidable (key b.2 < key a.2 ∨ (key a.2 = key b.2 ∧ a.1 ≤ b.1)))

instance (key : α → Nat) : IsTrans (Nat × α) (keyIdxDescRel key) := by
  constructor
  intro a b c hab hbc
  unfold keyIdxDescRel at *
  omega

instance (key : α → Nat) : IsTotal (Nat × α) (keyIdxDescRel key) := by
  constructor
  intro a b
  unfold keyIdxDescRel
  omega

/-- Specification-side stable descending sort: tag each element with its
position, sort by (key descending, original position ascending), untag. -/
def stableDescSortOn (key : α → Nat) (l : List α) : List α :=
  (l.enum.insertionSort (keyIdxDescRel key)).map Prod.snd

/-- Fixture: a repository aggregate present in a prior state. -/
def aggA : RepoAgg :=
  { total_clones := 1, total_unique := 1, first_tracked := "t0",
    last_updated := some "t0" }

/-- Fixture: a ledger holding one day far older than any 30-day horizon. -/
def ledA : List (String × DayStats) := [("2020-01-01", ⟨1, 1⟩)]

/-- Fixture: a prior state holding repository "A" only. -/
def stA : HistState := ⟨[("A", aggA)], [("A", ledA)]⟩

/-- Fixture: a current-cycle report for repository "B" with an empty
daily breakdown. -/
def rB : Report :=
  { timestamp := "t1", date := "2025-10-12", repo_name := "B",
    period_clones := 0, period_unique := 0, daily_breakdown := [] }

/-- Fixture: a current-cycle report for repository "C" with a one-day
breakdown. -/
def rC : Report :=
  { timestamp := "t1", date := "2025-10-12", repo_name := "C",
    period_clones := 4, period_unique := 2,
    daily_breakdown := [("2025-10-11", ⟨4, 2⟩)] }

/-! ### Dictionary lemmas -/

theorem dlookup_pyInsert_self (k : String) (v : α) (l : List (String × α)) :
    dlookup k (pyInsert k v l) = some v := by
  induction l with
  | nil => simp [pyInsert, dlookup]
  | cons p rest ih =>
    by_cases h : p.1 = k
    · simp [pyInsert, h, dlookup]
    · simp [pyInsert, h, dlookup, ih]

theorem dlookup_pyInsert_ne (k k' : String) (v : α) (l : List (String × α))
    (h : k' ≠ k) : dlookup k (pyInsert k' v l) = dlookup k l := by
  induction l with
  | nil => simp [pyInsert, dlookup, h]
  | cons p rest ih =>
    by_cases h1 : p.1 = k'
    · simp [pyInsert, h1, dlookup, h]
    · simp only [pyInsert, h1, if_neg]
      by_cases h2 : p.1 = k
      · simp [dlookup, h2]
      · simp [dlookup, h2, ih]

theorem dlookup_append (k : String) (l₁ l₂ : List (String × α)) :
    dlookup k (l₁ ++ l₂) = (dlookup k l₁).or (dlookup k l₂) := by
  induction l₁ with
  | nil => simp [dlookup]
  | cons p rest ih =>
    by_cases h : p.1 = k
    · simp [dlookup, h]
    · simp [dlookup, h, ih]

theorem dlookup_filter (k : String) (q : String → Bool) (l : List (String × α)) :
    dlookup k (l.filter fun p => q p.1) = if q k then dlookup k l else none := by
  induction l with
  | nil => simp [dlookup]
  | cons p rest ih =>
    by_cases h : p.1 = k
    · subst h
      by_cases hq : q p.1
      · simp [List.filter, hq, dlookup, ih]
      · simp only [List.filter, hq, Bool.false_eq_true, if_neg, ih]
        simp [hq]
    · by_cases hq : q p.1
      · simp [List.filter, hq, dlookup, h, ih]
      · simp [List.filter, hq, dlookup, h, ih]

theorem dlookup_eq_none_iff (k : String) (l : List (String × α)) :
    dlookup k l = none ↔ k ∉ l.map Prod.fst := by
  induction l with
  | nil => simp [dlookup]
  | cons p rest ih =>
    by_cases h : p.1 = k
    · simp [dlookup, h]
    · simp [dlookup, h, ih, Ne.symm h]

theorem filter_eq_self_of_dlookup_none (d : String) (l : List (String × α))
    (h : dlookup d l = none) : (l.filter fun p => !(p.1 == d)) = l := by
  rw [dlookup_eq_none_iff] at h
  apply List.filter_eq_self.mpr
  intro p hp
  simp only [Bool.not_eq_true', beq_eq_false_iff_ne, ne_eq]
  intro he
  exact h (he ▸ List.mem_map_of_mem Prod.fst hp)

/-! ### Closed form for the inner daily loop -/

theorem processDays_eq (bd led : List (String × DayStats)) (tot : Nat)
    (h : (bd.map Prod.fst).Nodup) :
    processDays bd led tot = (tot + sumCounts (newDays bd led), led ++ newDays bd led) := by
  induction bd generalizing led tot with
  | nil => simp [processDays, newDays, sumCounts]
  | cons p rest ih =>
    obtain ⟨d, s⟩ := p
    simp only [List.map_cons, List.nodup_cons] at h
    cases hdd : dlookup d led with
    | some v =>
      have hrest : newDays ((d, s) :: rest) led = newDays rest led := by
        simp [newDays, List.filter, hdd]
      simp only [processDays, hdd, Option.isSome_some, if_pos]
      rw [ih led tot h.2, hrest]
    | none =>
      have hnew : newDays ((d, s) :: rest) led = (d, s) :: newDays rest led := by
        simp [newDays, List.filter, hdd]
      have hsame : newDays rest (led ++ [(d, s)]) = newDays rest led := by
        apply List.filter_congr
        intro x hx
        have hxd : x.1 ≠ d := by
          intro he
          exact h.1 (he ▸ List.mem_map_of_mem Prod.fst hx)
        rw [dlookup_append]
        simp [dlookup, hxd, Ne.symm hxd]
      simp only [processDays, hdd, Option.isSome_none, Bool.false_eq_true, if_neg]
      rw [ih (led ++ [(d, s)]) (tot + s.count) h.2, hsame, hnew]
      refine Prod.ext ?_ ?_
      · simp [sumCounts]
        omega
      · simp

theorem processDays_dlookup_of_some (bd led : List (String × DayStats)) (tot : Nat)
    (d : String) (s₀ : DayStats) (h : dlookup d led = some s₀) :
    dlookup d (processDays bd led tot).2 = some s₀ := by
  induction bd generalizing led tot with
  | nil => simpa [processDays]
  | cons p rest ih =>
    obtain ⟨k, s⟩ := p
    by_cases hk : (dlookup k led).isSome
    · simp only [processDays, hk, if_pos]
      exact ih led tot h
    · simp only [processDays, hk, if_neg, Bool.not_eq_true]
      apply ih
      rw [dlookup_append, h]
      rfl

/-! ### Per-key characterization of `calculate_cumulative_totals` -/

theorem calc_untouched (reports : List Report) (st : HistState)
    (today cutoff name : String)
    (h : name ∉ reports.map Report.repo_name) :
    dlookup name (calculate_cumulative_totals reports st today cutoff).cumulative_totals
      = dlookup name st.cumulative_totals
    ∧ dlookup name (calculate_cumulative_totals reports st today cutoff).daily_records
      = dlookup name st.daily_records := by
  induction reports generalizing st with
  | nil => exact ⟨rfl, rfl⟩
  | cons r rest ih =>
    simp only [List.map_cons, List.mem_cons, not_or] at h
    have step : calculate_cumulative_totals (r :: rest) st today cutoff
        = calculate_cumulative_totals rest (processReport cutoff st r) today cutoff := rfl
    rw [step]
    obtain ⟨ihc, ihd⟩ := ih (processReport cutoff st r) h.2
    rw [ihc, ihd]
    constructor
    · exact dlookup_pyInsert_ne name r.repo_name _ _ (fun he => h.1 he.symm)
    · exact dlookup_pyInsert_ne name r.repo_name _ _ (fun he => h.1 he.symm)

theorem calc_dlookup (reports : List Report) (st : HistState)
    (today cutoff name : String)
    (hnodup : (reports.map Report.repo_name).Nodup) :
    (dlookup name (calculate_cumulative_totals reports st today cutoff).cumulative_totals,
     dlookup name (calculate_cumulative_totals reports st today cutoff).daily_records)
      = match reports.find? (fun r => r.repo_name == name) with
        | none => (dlookup name st.cumulative_totals, dlookup name st.daily_records)
        | some r =>
          (some (stepRepo r cutoff (dlookup name st.cumulative_totals)
                  (dlookup name st.daily_records)).1,
           some (stepRepo r cutoff (dlookup name st.cumulative_totals)
                  (dlookup name st.daily_records)).2) := by
  induction reports generalizing st with
  | nil => rfl
  | cons r rest ih =>
    simp only [List.map_cons, List.nodup_cons] at hnodup
    have step : calculate_cumulative_totals (r :: rest) st today cutoff
        = calculate_cumulative_totals rest (processReport cutoff st r) today cutoff := rfl
    by_cases hr : r.repo_name = name
    · subst hr
      have hfind : (r :: rest).find? (fun x => x.repo_name == r.repo_name) = some r := by
        simp [List.find?]
      rw [hfind, step]
      obtain ⟨huc, hud⟩ :=
        calc_untouched rest (processReport cutoff st r) today cutoff r.repo_name hnodup.1
      rw [huc, hud]
      simp only [processReport]
      rw [dlookup_pyInsert_self, dlookup_pyInsert_self]
    · have hbeq : (r.repo_name == name) = false := by
        simp [hr]
      have hfind : (r :: rest).find? (fun x => x.repo_name == name)
          = rest.find? (fun x => x.repo_name == name) := by
        simp [List.find?, hbeq]
      rw [hfind, step]
      have hc : dlookup name (processReport cutoff st r).cumulative_totals
          = dlookup name st.cumulative_totals := by
        simp only [processReport]
        exact dlookup_pyInsert_ne name r.repo_name _ _ hr
      have hd : dlookup name (processReport cutoff st r).daily_records
          = dlookup name st.daily_records := by
        simp only [processReport]
        exact dlookup_pyInsert_ne name r.repo_name _ _ hr
      rw [ih (processReport cutoff st r) hnodup.2, hc, hd]

theorem calc_keys_isSome (reports : List Report) (st : HistState)
    (today cutoff name : String)
    (h : (dlookup name st.cumulative_totals).isSome) :
    (dlookup name
      (calculate_cumulative_totals reports st today cutoff).cumulative_totals).isSome := by
  induction reports generalizing st with
  | nil => exact h
  | cons r rest ih =>
    have step : calculate_cumulative_totals (r :: rest) st today cutoff
        = calculate_cumulative_totals rest (processReport cutoff st r) today cutoff := rfl
    rw [step]
    apply ih
    simp only [processReport]
    by_cases hr : r.repo_name = name
    · subst hr
      rw [dlookup_pyInsert_self]
      rfl
    · rw [dlookup_pyInsert_ne name r.repo_name _ _ hr]
      exact h

/-! ### `find?` under permutation with unique keys -/

theorem find?_eq_head_filter (p : α → Bool) (l : List α) :
    l.find? p = (l.filter p).head? := by
  induction l with
  | nil => rfl
  | cons a rest ih =>
    by_cases h : p a
    · simp [List.find?, List.filter, h]
    · simp only [List.find?, List.filter, h]
      simpa [h] using ih

theorem find?_perm_of_nodup_keys (l₁ l₂ : List Report) (name : String)
    (hperm : l₁.Perm l₂) (hnodup : (l₁.map Report.repo_name).Nodup) :
    l₁.find? (fun r => r.repo_name == name) = l₂.find? (fun r => r.repo_name == name) := by
  rw [find?_eq_head_filter, find?_eq_head_filter]
  have hpf : (l₁.filter (fun r => r.repo_name == name)).Perm
      (l₂.filter (fun r => r.repo_name == name)) := hperm.filter _
  have hsmall : (l₁.filter (fun r => r.repo_name == name)) = []
      ∨ ∃ a, l₁.filter (fun r => r.repo_name == name) = [a] := by
    match hfe : l₁.filter (fun r => r.repo_name == name) with
    | [] => exact Or.inl hfe
    | [a] => exact Or.inr ⟨a, hfe⟩
    | a :: b :: t =>
      exfalso
      have hsub : (a :: b :: t).Sublist l₁ := hfe ▸ List.filter_sublist l₁
      have hnd : ((a :: b :: t).map Report.repo_name).Nodup :=
        List.Nodup.sublist (hsub.map Report.repo_name) hnodup
      have ha : a.repo_name = name := by
        have := List.mem_filter.mp (hfe ▸ List.mem_cons_self a (b :: t))
        simpa using this.2
      have hb : b.repo_name = name := by
        have hbm : b ∈ l₁.filter (fun r => r.repo_name == name) := by
          rw [hfe]
          exact List.mem_cons_of_mem a (List.mem_cons_self b t)
        simpa using (List.mem_filter.mp hbm).2
      simp only [List.map_cons, List.nodup_cons, List.mem_cons, List.mem_map] at hnd
      exact hnd.1 (Or.inl (ha.trans hb.symm))
  rcases hsmall with h0 | ⟨a, h1⟩
  · rw [h0] at hpf
    rw [h0, hpf.symm.eq_nil]
  · rw [h1] at hpf
    rw [h1, List.perm_singleton.mp hpf.symm]

/-! ### `stepRepo` projections -/

theorem stepRepo_total_clones (r : Report) (cutoff : String) (agg? : Option RepoAgg)
    (led? : Option (List (String × DayStats))) :
    (stepRepo r cutoff agg? led?).1.total_clones
      = (processDays r.daily_breakdown (led?.getD [])
          ((agg?.getD (initAgg r.timestamp)).total_clones)).1 := rfl

theorem stepRepo_total_unique (r : Report) (cutoff : String) (agg? : Option RepoAgg)
    (led? : Option (List (String × DayStats))) :
    (stepRepo r cutoff agg? led?).1.total_unique
      = max (agg?.getD (initAgg r.timestamp)).total_unique r.period_unique := rfl

theorem stepRepo_snd (r : Report) (cutoff : String) (agg? : Option RepoAgg)
    (led? : Option (List (String × DayStats))) :
    (stepRepo r cutoff agg? led?).2
      = pruneLedger cutoff
          (processDays r.daily_breakdown (led?.getD [])
            ((agg?.getD (initAgg r.timestamp)).total_clones)).2 := rfl

theorem processDays_total_mono (bd led : List (String × DayStats)) (tot : Nat) :
    tot ≤ (processDays bd led tot).1 := by
  induction bd generalizing led tot with
  | nil => simp [processDays]
  | cons p rest ih =>
    obtain ⟨d, s⟩ := p
    by_cases hd : (dlookup d led).isSome
    · simp only [processDays, hd, if_pos]
      exact ih led tot
    · simp only [processDays, hd, if_neg, Bool.not_eq_true]
      exact le_trans (Nat.le_add_right tot s.count) (ih (led ++ [(d, s)]) (tot + s.count))

theorem find?_self_of_nodup (reports : List Report) (r : Report)
    (hnodup : (reports.map Report.repo_name).Nodup) (hr : r ∈ reports) :
    reports.find? (fun x => x.repo_name == r.repo_name) = some r := by
  induction reports with
  | nil => cases hr
  | cons a rest ih =>
    simp only [List.map_cons, List.nodup_cons] at hnodup
    rcases List.mem_cons.mp hr with he | hm
    · subst he
      simp [List.find?]
    · have hne : a.repo_name ≠ r.repo_name := by
        intro he
        exact hnodup.1 (he ▸ List.mem_map_of_mem Report.repo_name hm)
      have hbeq : (a.repo_name == r.repo_name) = false := by simp [hne]
      simp [List.find?, hbeq, ih hnodup.2 hm]

/-! ### Claim theorems -/

/-- C3: the concrete two-cycle scenario.  From an empty prior state, cycle 1
for repo "X" with breakdown 2024-01-01 ↦ (3,2), 2024-01-02 ↦ (5,4) and
period_uniques 5 yields total_clones 8, total_unique 5 and a ledger holding
both dates; cycle 2 with breakdown 2024-01-02 ↦ (99,99), 2024-01-03 ↦ (1,1)
and period_uniques 6 yields total_clones 9 and total_unique 6 (both cycles'
cutoffs lie before all three dates). -/
theorem c3_concrete_two_cycle_scenario :
    let r1 : Report :=
      { timestamp := "2024-01-02 06:00:00", date := "2024-01-02",
        repo_name := "X", period_clones := 8, period_unique := 5,
        daily_breakdown := [("2024-01-01", ⟨3, 2⟩), ("2024-01-02", ⟨5, 4⟩)] };
    let r2 : Report :=
      { timestamp := "2024-01-03 06:00:00", date := "2024-01-03",
        repo_name := "X", period_clones := 100, period_unique := 6,
        daily_breakdown := [("2024-01-02", ⟨99, 99⟩), ("2024-01-03", ⟨1, 1⟩)] };
    let st1 := calculate_cumulative_totals [r1] ⟨[], []⟩ "2024-01-02" "2023-12-03";
    let st2 := calculate_cumulative_totals [r2] st1 "2024-01-03" "2023-12-04";
    ((dlookup "X" st1.cumulative_totals).map fun a => (a.total_clones, a.total_unique))
        = some (8, 5)
    ∧ ((dlookup "X" st1.daily_records).map fun l => l.map Prod.fst)
        = some ["2024-01-01", "2024-01-02"]
    ∧ ((dlookup "X" st2.cumulative_totals).map fun a => (a.total_clones, a.total_unique))
        = some (9, 6) := by
  decide

/-- C6: a repository present in the prior state's cumulative totals but absent
from the current batch keeps both its `RepoAggregate` entry and its
`DailyRecordWindow` exactly equal to their prior values — no update, no
pruning, no deletion. -/
theorem c6_absent_repo_persistence (reports : List Report) (st : HistState)
    (today cutoff name : String)
    (hprior : (dlookup name st.cumulative_totals).isSome)
    (habsent : name ∉ reports.map Report.repo_name) :
    dlookup name (calculate_cumulative_totals reports st today cutoff).cumulative_totals
      = dlookup name st.cumulative_totals
    ∧ dlookup name (calculate_cumulative_totals reports st today cutoff).daily_records
      = dlookup name st.daily_records :=
  calc_untouched reports st today cutoff name habsent

/-- Witness for C6 at a concrete input: repository "A" is in the prior state
and absent from the batch `[rB]`. -/
theorem c6_witness :
    dlookup "A" (calculate_cumulative_totals [rB] stA "2025-10-12" "2025-09-12").cumulative_totals
      = dlookup "A" stA.cumulative_totals
    ∧ dlookup "A" (calculate_cumulative_totals [rB] stA "2025-10-12" "2025-09-12").daily_records
      = dlookup "A" stA.daily_records :=
  c6_absent_repo_persistence [rB] stA "2025-10-12" "2025-09-12" "A" (by decide) (by decide)

/-- C9: an empty batch writes nothing (no CSV append, no summary overwrite, so
the prior persisted state is left as-is), surfaces a warning, and returns
normally; moreover the no-write/warning outcome occurs exactly on the empty
batch. -/
theorem c9_zero_report_cycle (clone_data : List Report) (historical : HistState)
    (timestamp today cutoff : String) :
    mainCycle [] historical timestamp today cutoff = ([], true)
    ∧ ((mainCycle clone_data historical timestamp today cutoff).1 = [] ↔ clone_data = [])
    ∧ ((mainCycle clone_data historical timestamp today cutoff).2 = true ↔ clone_data = []) := by
  refine ⟨rfl, ?_, ?_⟩ <;> cases clone_data <;> simp [mainCycle]

/-- C10: `period_stats.repositories_tracked` is the number of reports in the
current batch, while `cumulative_stats.repositories_tracked` is the number of
repositories in the cumulative-totals map the summary is built from; every
repository of the prior state is still present after reconciliation, so the
cumulative count covers repositories absent from the batch. -/
theorem c10_repositories_tracked (clone_data : List Report) (st : HistState)
    (timestamp today cutoff name : String)
    (cum : List (String × RepoAgg)) (recs : List (String × List (String × DayStats)))
    (hprior : (dlookup name st.cumulative_totals).isSome) :
    (update_clone_summary clone_data timestamp today cum recs).period_stats.repositories_tracked
      = clone_data.length
    ∧ (update_clone_summary clone_data timestamp today cum recs).cumulative_stats.repositories_tracked
      = cum.length
    ∧ (dlookup name
        (calculate_cumulative_totals clone_data st today cutoff).cumulative_totals).isSome :=
  ⟨rfl, rfl, calc_keys_isSome clone_data st today cutoff name hprior⟩

/-- Witness for C10 at a concrete input: prior state `stA` holds "A", the
batch holds only "B". -/
theorem c10_witness :
    (update_clone_summary [rB] "t1" "2025-10-12" stA.cumulative_totals
        stA.daily_records).period_stats.repositories_tracked = [rB].length
    ∧ (update_clone_summary [rB] "t1" "2025-10-12" stA.cumulative_totals
        stA.daily_records).cumulative_stats.repositories_tracked
      = stA.cumulative_totals.length
    ∧ (dlookup "A"
        (calculate_cumulative_totals [rB] stA "2025-10-12" "2025-09-12").cumulative_totals).isSome :=
  c10_repositories_tracked [rB] stA "t1" "2025-10-12" "2025-09-12" "A"
    stA.cumulative_totals stA.daily_records (by decide)

/-- C7: with counts embedded as natural numbers, reconciliation never
decreases any repository's `total_clones`, and for each report in a
distinct-name batch the repository's `total_unique` is updated exactly to
`max` of its old value (0 for a new repository) and the report's
`period_unique`. -/
theorem c7_monotonicity (reports : List Report) (st : HistState)
    (today cutoff name : String) (r : Report)
    (hnodup : (reports.map Report.repo_name).Nodup)
    (hr : r ∈ reports) :
    ((dlookup name st.cumulative_totals).map RepoAgg.total_clones).getD 0
      ≤ ((dlookup name
            (calculate_cumulative_totals reports st today cutoff).cumulative_totals).map
          RepoAgg.total_clones).getD 0
    ∧ ∃ agg, dlookup r.repo_name
          (calculate_cumulative_totals reports st today cutoff).cumulative_totals = some agg
        ∧ agg.total_unique
          = max (((dlookup r.repo_name st.cumulative_totals).map RepoAgg.total_unique).getD 0)
              r.period_unique := by
  constructor
  · have H := calc_dlookup reports st today cutoff name hnodup
    cases hf : reports.find? (fun x => x.repo_name == name) with
    | none =>
      rw [hf] at H
      rw [Prod.mk.injEq] at H
      rw [H.1]
    | some r' =>
      rw [hf] at H
      rw [Prod.mk.injEq] at H
      rw [H.1]
      simp only [Option.map_some', Option.getD_some, stepRepo_total_clones]
      refine le_trans ?_ (processDays_total_mono _ _ _)
      cases hdl : dlookup name st.cumulative_totals <;> simp [initAgg]
  · have hf := find?_self_of_nodup reports r hnodup hr
    have H := calc_dlookup reports st today cutoff r.repo_name hnodup
    rw [hf] at H
    rw [Prod.mk.injEq] at H
    refine ⟨_, H.1, ?_⟩
    rw [stepRepo_total_unique]
    cases hdl : dlookup r.repo_name st.cumulative_totals <;> simp [initAgg]

/-- Witness for C7 at a concrete input: batch `[rB, rC]` over prior state
`stA`, looked up at name "A" and at report `rC`. -/
theorem c7_witness :
    ((dlookup "A" stA.cumulative_totals).map RepoAgg.total_clones).getD 0
      ≤ ((dlookup "A"
            (calculate_cumulative_totals [rB, rC] stA "2025-10-12" "2025-09-12").cumulative_totals).map
          RepoAgg.total_clones).getD 0
    ∧ ∃ agg, dlookup rC.repo_name
          (calculate_cumulative_totals [rB, rC] stA "2025-10-12" "2025-09-12").cumulative_totals
          = some agg
        ∧ agg.total_unique
          = max (((dlookup rC.repo_name stA.cumulative_totals).map RepoAgg.total_unique).getD 0)
              rC.period_unique :=
  c7_monotonicity [rB, rC] stA "2025-10-12" "2025-09-12" "A" rC (by decide) (by decide)

/-- C4: order independence.  For a batch with distinct repository names,
reconciling any permutation of the batch yields extensionally equal
cumulative-totals and daily-records maps (Python dict equality), and
processing any permutation of a duplicate-free daily breakdown yields the
same `total_clones`. -/
theorem c4_order_independence (reports₁ reports₂ : List Report) (st : HistState)
    (today cutoff name : String)
    (bd₁ bd₂ led : List (String × DayStats)) (tot : Nat)
    (hperm : reports₁.Perm reports₂)
    (hnodup : (reports₁.map Report.repo_name).Nodup)
    (hbperm : bd₁.Perm bd₂)
    (hbnodup : (bd₁.map Prod.fst).Nodup) :
    (dlookup name (calculate_cumulative_totals reports₁ st today cutoff).cumulative_totals
       = dlookup name (calculate_cumulative_totals reports₂ st today cutoff).cumulative_totals
     ∧ dlookup name (calculate_cumulative_totals reports₁ st today cutoff).daily_records
       = dlookup name (calculate_cumulative_totals reports₂ st today cutoff).daily_records)
    ∧ (processDays bd₁ led tot).1 = (processDays bd₂ led tot).1 := by
  constructor
  · have hnodup₂ : (reports₂.map Report.repo_name).Nodup :=
      ((hperm.map Report.repo_name).nodup_iff).mp hnodup
    have H₁ := calc_dlookup reports₁ st today cutoff name hnodup
    have H₂ := calc_dlookup reports₂ st today cutoff name hnodup₂
    rw [find?_perm_of_nodup_keys reports₁ reports₂ name hperm hnodup] at H₁
    have H := H₁.trans H₂.symm
    rw [Prod.mk.injEq] at H
    exact H
  · have hbnodup₂ : (bd₂.map Prod.fst).Nodup :=
      ((hbperm.map Prod.fst).nodup_iff).mp hbnodup
    rw [processDays_eq bd₁ led tot hbnodup, processDays_eq bd₂ led tot hbnodup₂]
    show tot + sumCounts (newDays bd₁ led) = tot + sumCounts (newDays bd₂ led)
    have hfp : (newDays bd₁ led).Perm (newDays bd₂ led) := hbperm.filter _
    unfold sumCounts
    rw [(hfp.map fun p => p.2.count).sum_eq]

/-- Witness for C4 at a concrete input: the two-report batch `[rB, rC]`
against its swap, and a two-day breakdown against its swap. -/
theorem c4_witness :
    (dlookup "C" (calculate_cumulative_totals [rB, rC] stA "2025-10-12" "2025-09-12").cumulative_totals
       = dlookup "C" (calculate_cumulative_totals [rC, rB] stA "2025-10-12" "2025-09-12").cumulative_totals
     ∧ dlookup "C" (calculate_cumulative_totals [rB, rC] stA "2025-10-12" "2025-09-12").daily_records
       = dlookup "C" (calculate_cumulative_totals [rC, rB] stA "2025-10-12" "2025-09-12").daily_records)
    ∧ (processDays [("2025-10-10", ⟨3, 2⟩), ("2025-10-11", ⟨5, 4⟩)] ledA 1).1
      = (processDays [("2025-10-11", ⟨5, 4⟩), ("2025-10-10", ⟨3, 2⟩)] ledA 1).1 :=
  c4_order_independence [rB, rC] [rC, rB] stA "2025-10-12" "2025-09-12" "C"
    [("2025-10-10", ⟨3, 2⟩), ("2025-10-11", ⟨5, 4⟩)]
    [("2025-10-11", ⟨5, 4⟩), ("2025-10-10", ⟨3, 2⟩)] ledA 1
    (List.Perm.swap rC rB []) (by decide)
    (List.Perm.swap (("2025-10-11", ⟨5, 4⟩) : String × DayStats)
      (("2025-10-10", ⟨3, 2⟩) : String × DayStats) []) (by decide)

/-! ### Erasure simulation: a date already in the ledger contributes nothing -/

theorem processDays_cons_skip (k : String) (s : DayStats)
    (rest led : List (String × DayStats)) (tot : Nat)
    (h : (dlookup k led).isSome) :
    processDays ((k, s) :: rest) led tot = processDays rest led tot := by
  simp [processDays, h]

theorem processDays_cons_add (k : String) (s : DayStats)
    (rest led : List (String × DayStats)) (tot : Nat)
    (h : dlookup k led = none) :
    processDays ((k, s) :: rest) led tot
      = processDays rest (led ++ [(k, s)]) (tot + s.count) := by
  simp [processDays, h]

theorem filter_cons_drop (d : String) (s : DayStats) (rest : List (String × DayStats)) :
    (((d, s) :: rest).filter fun p => !(p.1 == d))
      = rest.filter fun p => !(p.1 == d) := by
  simp [List.filter]

theorem filter_cons_keep (k d : String) (s : DayStats) (rest : List (String × DayStats))
    (hk : k ≠ d) :
    (((k, s) :: rest).filter fun p => !(p.1 == d))
      = (k, s) :: rest.filter fun p => !(p.1 == d) := by
  have hbk : (!(k == d)) = true := by simp [hk]
  simp [List.filter, hbk]

theorem dlookup_filter_ne (k d : String) (l : List (String × α)) (h : k ≠ d) :
    dlookup k (l.filter fun p => !(p.1 == d)) = dlookup k l := by
  induction l with
  | nil => rfl
  | cons p rest ih =>
    by_cases h1 : p.1 = d
    · have hb : (!(p.1 == d)) = false := by simp [h1]
      simp only [List.filter, hb]
      rw [ih]
      have h2 : p.1 ≠ k := fun he => h (he.symm.trans h1)
      simp [dlookup, h2]
    · have hb : (!(p.1 == d)) = true := by simp [h1]
      simp only [List.filter, hb]
      by_cases h2 : p.1 = k
      · simp [dlookup, h2]
      · simp [dlookup, h2, ih]

theorem dlookup_append_right_some (d : String) (led : List (String × DayStats))
    (k : String) (s : DayStats) (h : (dlookup d led).isSome) :
    (dlookup d (led ++ [(k, s)])).isSome := by
  rw [dlookup_append]
  rcases Option.isSome_iff_exists.mp h with ⟨v, hv⟩
  simp [hv]

theorem dlookup_pruneLedger (cutoff k : String) (led : List (String × DayStats)) :
    dlookup k (pruneLedger cutoff led)
      = if strLe cutoff k then dlookup k led else none := by
  unfold pruneLedger
  rw [dlookup_filter]

theorem pruneLedger_filter_comm (cutoff d : String) (led : List (String × DayStats)) :
    ((pruneLedger cutoff led).filter fun p => !(p.1 == d))
      = pruneLedger cutoff (led.filter fun p => !(p.1 == d)) := by
  unfold pruneLedger
  rw [List.filter_filter, List.filter_filter]
  apply List.filter_congr
  intro x hx
  rw [Bool.and_comm]

theorem processDays_skip_eq (d : String) (bd led : List (String × DayStats)) (tot : Nat)
    (hsome : (dlookup d led).isSome) :
    processDays bd led tot = processDays (bd.filter fun p => !(p.1 == d)) led tot := by
  induction bd generalizing led tot with
  | nil => simp [processDays]
  | cons p rest ih =>
    obtain ⟨k, s⟩ := p
    by_cases hk : k = d
    · subst hk
      rw [filter_cons_drop, processDays_cons_skip k s rest led tot hsome]
      exact ih led tot hsome
    · rw [filter_cons_keep k d s rest hk]
      cases hkl : dlookup k led with
      | some v =>
        rw [processDays_cons_skip k s rest led tot (by simp [hkl]),
          processDays_cons_skip k s _ led tot (by simp [hkl])]
        exact ih led tot hsome
      | none =>
        rw [processDays_cons_add k s rest led tot hkl,
          processDays_cons_add k s _ led tot hkl]
        exact ih (led ++ [(k, s)]) (tot + s.count)
          (dlookup_append_right_some d led k s hsome)

theorem processDays_erase_sim (d : String) (bd led ledE : List (String × DayStats))
    (tot totE : Nat)
    (hsome : (dlookup d led).isSome)
    (hE : ledE = led.filter fun p => !(p.1 == d)) :
    (processDays bd led tot).1 + totE
        = (processDays (bd.filter fun p => !(p.1 == d)) ledE totE).1 + tot
    ∧ ((processDays bd led tot).2.filter fun p => !(p.1 == d))
        = (processDays (bd.filter fun p => !(p.1 == d)) ledE totE).2
    ∧ (dlookup d (processDays bd led tot).2).isSome := by
  induction bd generalizing led ledE tot totE with
  | nil =>
    subst hE
    refine ⟨by simp [processDays]; omega, by simp [processDays], by simpa [processDays]⟩
  | cons p rest ih =>
    obtain ⟨k, s⟩ := p
    by_cases hk : k = d
    · subst hk
      rw [filter_cons_drop, processDays_cons_skip k s rest led tot hsome]
      exact ih led ledE tot totE hsome hE
    · rw [filter_cons_keep k d s rest hk]
      have hlook : dlookup k ledE = dlookup k led := by
        rw [hE]
        exact dlookup_filter_ne k d led hk
      cases hkl : dlookup k led with
      | some v =>
        rw [processDays_cons_skip k s rest led tot (by simp [hkl]),
          processDays_cons_skip k s _ ledE totE (by simp [hlook, hkl])]
        exact ih led ledE tot totE hsome hE
      | none =>
        rw [processDays_cons_add k s rest led tot hkl,
          processDays_cons_add k s _ ledE totE (hlook.trans hkl)]
        have hE' : ledE ++ [(k, s)] = (led ++ [(k, s)]).filter fun p => !(p.1 == d) := by
          rw [List.filter_append, ← hE, filter_cons_keep k d s [] hk]
          rfl
        obtain ⟨h1, h2, h3⟩ :=
          ih (led ++ [(k, s)]) (ledE ++ [(k, s)]) (tot + s.count) (totE + s.count)
            (dlookup_append_right_some d led k s hsome) hE'
        exact ⟨by omega, h2, h3⟩

theorem processDays_first_add (d : String) (s : DayStats)
    (bd led : List (String × DayStats)) (tot : Nat)
    (hnone : dlookup d led = none)
    (hmem : (d, s) ∈ bd)
    (hnodup : (bd.map Prod.fst).Nodup) :
    (processDays bd led tot).1
        = (processDays (bd.filter fun p => !(p.1 == d)) led tot).1 + s.count
    ∧ ((processDays bd led tot).2.filter fun p => !(p.1 == d))
        = (processDays (bd.filter fun p => !(p.1 == d)) led tot).2
    ∧ (dlookup d (processDays bd led tot).2).isSome := by
  induction bd generalizing led tot with
  | nil => cases hmem
  | cons p rest ih =>
    obtain ⟨k, s'⟩ := p
    simp only [List.map_cons, List.nodup_cons] at hnodup
    by_cases hk : k = d
    · subst hk
      have hs : s' = s := by
        rcases List.mem_cons.mp hmem with he | hm
        · exact (Prod.mk.injEq _ _ _ _ ▸ he).2.symm
        · exact absurd (List.mem_map_of_mem Prod.fst hm) hnodup.1
      subst hs
      rw [filter_cons_drop, processDays_cons_add k s' rest led tot hnone]
      have hsome : (dlookup k (led ++ [(k, s')])).isSome := by
        rw [dlookup_append, hnone]
        simp [dlookup]
      have hE : led = (led ++ [(k, s')]).filter fun p => !(p.1 == k) := by
        rw [List.filter_append, filter_eq_self_of_dlookup_none k led hnone,
          filter_cons_drop]
        simp
      obtain ⟨h1, h2, h3⟩ :=
        processDays_erase_sim k rest (led ++ [(k, s')]) led (tot + s'.count) tot hsome hE
      exact ⟨by omega, h2, h3⟩
    · have hm : (d, s) ∈ rest := by
        rcases List.mem_cons.mp hmem with he | hm
        · exact absurd ((Prod.mk.injEq _ _ _ _ ▸ he).1.symm) hk
        · exact hm
      rw [filter_cons_keep k d s' rest hk]
      cases hkl : dlookup k led with
      | some v =>
        rw [processDays_cons_skip k s' rest led tot (by simp [hkl]),
          processDays_cons_skip k s' _ led tot (by simp [hkl])]
        exact ih led tot hnone hm hnodup.2
      | none =>
        rw [processDays_cons_add k s' rest led tot hkl,
          processDays_cons_add k s' _ led tot hkl]
        have hnone' : dlookup d (led ++ [(k, s')]) = none := by
          rw [dlookup_append, hnone]
          simp [dlookup, hk]
        exact ih (led ++ [(k, s')]) (tot + s'.count) hnone' hm hnodup.2

theorem eraseDate_breakdown (d : String) (r : Report) :
    (eraseDate d r).daily_breakdown = r.daily_breakdown.filter fun p => !(p.1 == d) := rfl

theorem eraseDate_timestamp (d : String) (r : Report) :
    (eraseDate d r).timestamp = r.timestamp := rfl

theorem eraseDate_period_unique (d : String) (r : Report) :
    (eraseDate d r).period_unique = r.period_unique := rfl

theorem stepRepo_erase_sim (d : String) (n : Nat) (r : Report) (cutoff : String)
    (agg aggE : RepoAgg) (led ledE : List (String × DayStats))
    (hagg : agg.total_clones = aggE.total_clones + n)
    (hsome : (dlookup d led).isSome)
    (hE : ledE = led.filter fun p => !(p.1 == d))
    (hcut : strLe cutoff d = true) :
    (stepRepo r cutoff (some agg) (some led)).1.total_clones
        = (stepRepo (eraseDate d r) cutoff (some aggE) (some ledE)).1.total_clones + n
    ∧ ((stepRepo r cutoff (some agg) (some led)).2.filter fun p => !(p.1 == d))
        = (stepRepo (eraseDate d r) cutoff (some aggE) (some ledE)).2
    ∧ (dlookup d (stepRepo r cutoff (some agg) (some led)).2).isSome := by
  obtain ⟨h1, h2, h3⟩ := processDays_erase_sim d r.daily_breakdown led ledE
    agg.total_clones aggE.total_clones hsome hE
  refine ⟨?_, ?_, ?_⟩
  · rw [stepRepo_total_clones, stepRepo_total_clones]
    simp only [Option.getD_some, eraseDate_breakdown, eraseDate_timestamp]
    omega
  · rw [stepRepo_snd, stepRepo_snd]
    simp only [Option.getD_some, eraseDate_breakdown, eraseDate_timestamp]
    rw [pruneLedger_filter_comm, h2]
  · rw [stepRepo_snd]
    simp only [Option.getD_some]
    rw [dlookup_pruneLedger, hcut]
    simpa using h3

theorem runCycles_erase_sim (d : String) (n : Nat) (cycles : List (Report × String))
    (hcuts : ∀ c ∈ cycles, strLe c.2 d = true) :
    ∀ (agg aggE : RepoAgg) (led ledE : List (String × DayStats)),
      agg.total_clones = aggE.total_clones + n →
      (dlookup d led).isSome →
      ledE = led.filter (fun p => !(p.1 == d)) →
      (runCycles cycles (agg, led)).1.total_clones
        = (runCycles (cycles.map fun c => (eraseDate d c.1, c.2)) (aggE, ledE)).1.total_clones
          + n := by
  induction cycles with
  | nil =>
    intro agg aggE led ledE hagg hsome hE
    simpa [runCycles] using hagg
  | cons c rest ih =>
    intro agg aggE led ledE hagg hsome hE
    obtain ⟨r, cutoff⟩ := c
    have hcut : strLe cutoff d = true := hcuts (r, cutoff) (List.mem_cons_self _ _)
    obtain ⟨h1, h2, h3⟩ := stepRepo_erase_sim d n r cutoff agg aggE led ledE hagg hsome hE hcut
    simp only [runCycles, List.map_cons]
    exact ih (fun c hc => hcuts c (List.mem_cons_of_mem _ hc)) _ _ _ _ h1 h3 h2.symm

theorem stepRepo_first_add (d : String) (s : DayStats) (r : Report) (cutoff : String)
    (agg? : Option RepoAgg) (led : List (String × DayStats))
    (hnone : dlookup d led = none)
    (hmem : (d, s) ∈ r.daily_breakdown)
    (hnodup : (r.daily_breakdown.map Prod.fst).Nodup)
    (hcut : strLe cutoff d = true) :
    (stepRepo r cutoff agg? (some led)).1.total_clones
        = (stepRepo (eraseDate d r) cutoff agg? (some led)).1.total_clones + s.count
    ∧ ((stepRepo r cutoff agg? (some led)).2.filter fun p => !(p.1 == d))
        = (stepRepo (eraseDate d r) cutoff agg? (some led)).2
    ∧ (dlookup d (stepRepo r cutoff agg? (some led)).2).isSome := by
  obtain ⟨h1, h2, h3⟩ := processDays_first_add d s r.daily_breakdown led
    ((agg?.getD (initAgg r.timestamp)).total_clones) hnone hmem hnodup
  refine ⟨?_, ?_, ?_⟩
  · rw [stepRepo_total_clones, stepRepo_total_clones]
    simp only [Option.getD_some, eraseDate_breakdown, eraseDate_timestamp]
    exact h1
  · rw [stepRepo_snd, stepRepo_snd]
    simp only [Option.getD_some, eraseDate_breakdown, eraseDate_timestamp]
    rw [pruneLedger_filter_comm, h2]
  · rw [stepRepo_snd]
    simp only [Option.getD_some]
    rw [dlookup_pruneLedger, hcut]
    simpa using h3

/-- C2: first-seen wins.  If the ledger already holds date `d` with snapshot
`s₀`, then a later cycle whose report carries any (possibly different) stats
for `d` behaves exactly as if `d` were absent from the report — nothing is
added to `total_clones`, nothing is rewritten in the ledger — and as long as
`d` survives the cycle's pruning cutoff the stored snapshot is still `s₀`. -/
theorem c2_first_seen_wins (r : Report) (cutoff d : String) (s₀ : DayStats)
    (agg? : Option RepoAgg) (led : List (String × DayStats))
    (hd : dlookup d led = some s₀)
    (hcut : strLe cutoff d = true) :
    dlookup d (stepRepo r cutoff agg? (some led)).2 = some s₀
    ∧ stepRepo r cutoff agg? (some led)
      = stepRepo (eraseDate d r) cutoff agg? (some led) := by
  have hsome : (dlookup d led).isSome := by rw [hd]; rfl
  constructor
  · rw [stepRepo_snd]
    simp only [Option.getD_some]
    rw [dlookup_pruneLedger, hcut]
    simpa using processDays_dlookup_of_some r.daily_breakdown led _ d s₀ hd
  · have hskip := processDays_skip_eq d r.daily_breakdown led
      ((agg?.getD (initAgg r.timestamp)).total_clones) hsome
    unfold stepRepo
    simp only [Option.getD_some, eraseDate_breakdown, eraseDate_timestamp,
      eraseDate_period_unique]
    rw [hskip]

/-- Witness for C2 at a concrete input: the ledger `ledA` holds 2020-01-01
with snapshot (1,1); a later report re-reports that date as (9,9). -/
theorem c2_witness :
    dlookup "2020-01-01"
        (stepRepo
          { timestamp := "t2", date := "2025-10-12", repo_name := "A",
            period_clones := 9, period_unique := 3,
            daily_breakdown := [("2020-01-01", ⟨9, 9⟩)] }
          "2019-01-01" (some aggA) (some ledA)).2 = some ⟨1, 1⟩
    ∧ stepRepo
        { timestamp := "t2", date := "2025-10-12", repo_name := "A",
          period_clones := 9, period_unique := 3,
          daily_breakdown := [("2020-01-01", ⟨9, 9⟩)] }
        "2019-01-01" (some aggA) (some ledA)
      = stepRepo
          (eraseDate "2020-01-01"
            { timestamp := "t2", date := "2025-10-12", repo_name := "A",
              period_clones := 9, period_unique := 3,
              daily_breakdown := [("2020-01-01", ⟨9, 9⟩)] })
          "2019-01-01" (some aggA) (some ledA) :=
  c2_first_seen_wins
    { timestamp := "t2", date := "2025-10-12", repo_name := "A",
      period_clones := 9, period_unique := 3,
      daily_breakdown := [("2020-01-01", ⟨9, 9⟩)] }
    "2019-01-01" "2020-01-01" ⟨1, 1⟩ (some aggA) ledA (by decide) (by decide)

/-- C1: no double-count.  Starting from a per-repository state whose ledger
does not yet hold date `d`, run a first cycle whose duplicate-free breakdown
reports `(d, s)` and then any sequence of later cycles whose reports may
re-report `d` arbitrarily; as long as every cycle's pruning cutoff keeps `d`
inside the 30-day retention window, the final `total_clones` exceeds the
total of the same run with `d` erased from every report by exactly
`s.count` — the date's first-seen count is added exactly once. -/
theorem c1_no_double_count (cycles : List (Report × String)) (r₀ : Report)
    (cutoff₀ d : String) (s : DayStats) (agg : RepoAgg)
    (led : List (String × DayStats))
    (hnone : dlookup d led = none)
    (hmem : (d, s) ∈ r₀.daily_breakdown)
    (hnodup : (r₀.daily_breakdown.map Prod.fst).Nodup)
    (hcut₀ : strLe cutoff₀ d = true)
    (hcuts : ∀ c ∈ cycles, strLe c.2 d = true) :
    (runCycles ((r₀, cutoff₀) :: cycles) (agg, led)).1.total_clones
      = (runCycles (((r₀, cutoff₀) :: cycles).map fun c => (eraseDate d c.1, c.2))
          (agg, led)).1.total_clones + s.count := by
  simp only [runCycles, List.map_cons]
  obtain ⟨h1, h2, h3⟩ :=
    stepRepo_first_add d s r₀ cutoff₀ (some agg) led hnone hmem hnodup hcut₀
  exact runCycles_erase_sim d s.count cycles hcuts _ _ _ _ h1 h3 h2.symm

/-- Witness for C1 at a concrete input: date 2025-10-01 first reported with
count 7, then re-reported with count 9 by a later overlapping cycle. -/
theorem c1_witness :
    (runCycles
        [({ timestamp := "t1", date := "2025-10-02", repo_name := "X",
            period_clones := 7, period_unique := 1,
            daily_breakdown := [("2025-10-01", ⟨7, 1⟩)] }, "2025-09-12"),
         ({ timestamp := "t2", date := "2025-10-03", repo_name := "X",
            period_clones := 9, period_unique := 2,
            daily_breakdown := [("2025-10-01", ⟨9, 9⟩)] }, "2025-09-13")]
        (aggA, [])).1.total_clones
      = (runCycles
          ([({ timestamp := "t1", date := "2025-10-02", repo_name := "X",
               period_clones := 7, period_unique := 1,
               daily_breakdown := [("2025-10-01", ⟨7, 1⟩)] }, "2025-09-12"),
            ({ timestamp := "t2", date := "2025-10-03", repo_name := "X",
               period_clones := 9, period_unique := 2,
               daily_breakdown := [("2025-10-01", ⟨9, 9⟩)] }, "2025-09-13")].map
            fun c => (eraseDate "2025-10-01" c.1, c.2))
          (aggA, [])).1.total_clones + (⟨7, 1⟩ : DayStats).count :=
  c1_no_double_count
    [({ timestamp := "t2", date := "2025-10-03", repo_name := "X",
        period_clones := 9, period_unique := 2,
        daily_breakdown := [("2025-10-01", ⟨9, 9⟩)] }, "2025-09-13")]
    { timestamp := "t1", date := "2025-10-02", repo_name := "X",
      period_clones := 7, period_unique := 1,
      daily_breakdown := [("2025-10-01", ⟨7, 1⟩)] }
    "2025-09-12" "2025-10-01" ⟨7, 1⟩ aggA [] rfl (by decide) (by decide)
    (by decide) (by decide)

/-! ### Retention pruning (C5) -/

theorem stepRepo_fst_cutoff_indep (r : Report) (c₁ c₂ : String)
    (agg? : Option RepoAgg) (led? : Option (List (String × DayStats))) :
    (stepRepo r c₁ agg? led?).1 = (stepRepo r c₂ agg? led?).1 := rfl

theorem calc_cum_cutoff_indep (reports : List Report) (st₁ st₂ : HistState)
    (today c₁ c₂ : String)
    (hcum : st₁.cumulative_totals = st₂.cumulative_totals)
    (hrecs : ∀ r ∈ reports,
      dlookup r.repo_name st₁.daily_records = dlookup r.repo_name st₂.daily_records)
    (hnodup : (reports.map Report.repo_name).Nodup) :
    (calculate_cumulative_totals reports st₁ today c₁).cumulative_totals
      = (calculate_cumulative_totals reports st₂ today c₂).cumulative_totals := by
  induction reports generalizing st₁ st₂ with
  | nil => exact hcum
  | cons r rest ih =>
    simp only [List.map_cons, List.nodup_cons] at hnodup
    have step₁ : calculate_cumulative_totals (r :: rest) st₁ today c₁
        = calculate_cumulative_totals rest (processReport c₁ st₁ r) today c₁ := rfl
    have step₂ : calculate_cumulative_totals (r :: rest) st₂ today c₂
        = calculate_cumulative_totals rest (processReport c₂ st₂ r) today c₂ := rfl
    rw [step₁, step₂]
    apply ih
    · simp only [processReport]
      rw [hcum, hrecs r (List.mem_cons_self _ _),
        stepRepo_fst_cutoff_indep r c₁ c₂ _ _]
    · intro r' hr'
      have hne : r'.repo_name ≠ r.repo_name := by
        intro he
        exact hnodup.1 (he ▸ List.mem_map_of_mem Report.repo_name hr')
      simp only [processReport]
      rw [dlookup_pyInsert_ne _ _ _ _ (fun he => hne he.symm),
        dlookup_pyInsert_ne _ _ _ _ (fun he => hne he.symm)]
      exact hrecs r' (List.mem_cons_of_mem _ hr')
    · exact hnodup.2

/-- Counterexample to C5 as stated: repository "A" is present in the prior
state with a ledger entry dated 2020-01-01, far before the cycle's cutoff
2025-09-12, yet because "A" is absent from the batch the entry is still
there after the cycle — pruning does not run for every repository. -/
theorem c5_counterexample :
    dlookup "A" (calculate_cumulative_totals [rB] stA "2025-10-12" "2025-09-12").daily_records
      = some [("2020-01-01", ⟨1, 1⟩)]
    ∧ strLe "2025-09-12" "2020-01-01" = false := by
  decide

/-- C5 (amended): retention pruning is loss-of-ledger-only, for every
repository present in the current batch.  For each report of a
distinct-name batch: (i) the repository's stored ledger is the
post-processing ledger pruned at the cutoff, and pruning keeps a date's
entry exactly when the date is not strictly before the cutoff; (ii) the
resulting cumulative-totals map — in particular every `total_clones` — is
the same under any two cutoffs; (iii) a date absent from the repository's
ledger (e.g. pruned earlier) that is reported again is treated as new: its
count is part of the sum added to `total_clones`. -/
theorem c5_amended_retention_pruning (reports : List Report) (st : HistState)
    (today cutoff c₁ c₂ dt dt' : String) (r : Report) (s : DayStats)
    (led' : List (String × DayStats))
    (hr : r ∈ reports)
    (hnodup : (reports.map Report.repo_name).Nodup)
    (hbdnodup : (r.daily_breakdown.map Prod.fst).Nodup)
    (hdt : (dt, s) ∈ r.daily_breakdown)
    (habsent : dlookup dt ((dlookup r.repo_name st.daily_records).getD []) = none) :
    dlookup r.repo_name
        (calculate_cumulative_totals reports st today cutoff).daily_records
      = some (pruneLedger cutoff
          (processDays r.daily_breakdown
            ((dlookup r.repo_name st.daily_records).getD [])
            (((dlookup r.repo_name st.cumulative_totals).getD
                (initAgg r.timestamp)).total_clones)).2)
    ∧ dlookup dt' (pruneLedger cutoff led')
      = (if strLe cutoff dt' then dlookup dt' led' else none)
    ∧ (calculate_cumulative_totals reports st today c₁).cumulative_totals
      = (calculate_cumulative_totals reports st today c₂).cumulative_totals
    ∧ (stepRepo r cutoff (dlookup r.repo_name st.cumulative_totals)
          (dlookup r.repo_name st.daily_records)).1.total_clones
      = ((dlookup r.repo_name st.cumulative_totals).getD
            (initAgg r.timestamp)).total_clones
        + sumCounts (newDays r.daily_breakdown
            ((dlookup r.repo_name st.daily_records).getD []))
    ∧ (dt, s) ∈ newDays r.daily_breakdown
        ((dlookup r.repo_name st.daily_records).getD []) := by
  refine ⟨?_, dlookup_pruneLedger cutoff dt' led', ?_, ?_, ?_⟩
  · have hf := find?_self_of_nodup reports r hnodup hr
    have H := calc_dlookup reports st today cutoff r.repo_name hnodup
    rw [hf, Prod.mk.injEq] at H
    rw [H.2, stepRepo_snd]
  · exact calc_cum_cutoff_indep reports st st today c₁ c₂ rfl (fun _ _ => rfl) hnodup
  · rw [stepRepo_total_clones, processDays_eq _ _ _ hbdnodup]
  · unfold newDays
    refine List.mem_filter.mpr ⟨hdt, ?_⟩
    simp [habsent]

/-- Witness for the amended C5 at a concrete input: batch `[rC]` over prior
state `stA`; the date 2025-10-11 is absent from "C"'s (empty) prior ledger. -/
theorem c5_witness :
    dlookup rC.repo_name
        (calculate_cumulative_totals [rC] stA "2025-10-12" "2025-09-12").daily_records
      = some (pruneLedger "2025-09-12"
          (processDays rC.daily_breakdown
            ((dlookup rC.repo_name stA.daily_records).getD [])
            (((dlookup rC.repo_name stA.cumulative_totals).getD
                (initAgg rC.timestamp)).total_clones)).2)
    ∧ dlookup "2020-01-01" (pruneLedger "2025-09-12" ledA)
      = (if strLe "2025-09-12" "2020-01-01" then dlookup "2020-01-01" ledA else none)
    ∧ (calculate_cumulative_totals [rC] stA "2025-10-12" "2019-01-01").cumulative_totals
      = (calculate_cumulative_totals [rC] stA "2025-10-12" "2025-09-12").cumulative_totals
    ∧ (stepRepo rC "2025-09-12" (dlookup rC.repo_name stA.cumulative_totals)
          (dlookup rC.repo_name stA.daily_records)).1.total_clones
      = ((dlookup rC.repo_name stA.cumulative_totals).getD
            (initAgg rC.timestamp)).total_clones
        + sumCounts (newDays rC.daily_breakdown
            ((dlookup rC.repo_name stA.daily_records).getD []))
    ∧ ("2025-10-11", (⟨4, 2⟩ : DayStats)) ∈ newDays rC.daily_breakdown
        ((dlookup rC.repo_name stA.daily_records).getD []) :=
  c5_amended_retention_pruning [rC] stA "2025-10-12" "2025-09-12" "2019-01-01"
    "2025-09-12" "2025-10-11" "2020-01-01" rC ⟨4, 2⟩ ledA
    (by decide) (by decide) (by decide) (by decide) (by decide)

/-! ### Stable descending sort (C8) -/

theorem enumLE_iff_keyIdxDescRel (key : α → Nat) (a b : Nat × α) :
    List.enumLE (fun x y => decide (key y ≤ key x)) a b = true
      ↔ keyIdxDescRel key a b := by
  unfold List.enumLE keyIdxDescRel
  by_cases h1 : key b.2 ≤ key a.2 <;> by_cases h2 : key a.2 ≤ key b.2 <;>
    simp [h1, h2] <;> omega

theorem eq_of_sorted_perm_nodup_idx (key : α → Nat) (l₁ : List (Nat × α)) :
    ∀ l₂ : List (Nat × α), l₁.Perm l₂ →
      l₁.Pairwise (keyIdxDescRel key) → l₂.Pairwise (keyIdxDescRel key) →
      (l₁.map Prod.fst).Nodup → l₁ = l₂ := by
  induction l₁ with
  | nil =>
    intro l₂ hp _ _ _
    exact hp.symm.eq_nil.symm
  | cons x t₁ ih =>
    intro l₂ hp hs₁ hs₂ hnd
    cases l₂ with
    | nil => exact absurd hp.eq_nil (List.cons_ne_nil x t₁)
    | cons y t₂ =>
      have hxy : x = y := by
        by_contra hne
        have hx2 : x ∈ t₂ := by
          rcases List.mem_cons.mp (hp.mem_iff.mp (List.mem_cons_self x t₁)) with h | h
          · exact absurd h hne
          · exact h
        have hy1 : y ∈ t₁ := by
          rcases List.mem_cons.mp (hp.symm.mem_iff.mp (List.mem_cons_self y t₂)) with h | h
          · exact absurd h.symm hne
          · exact h
        have r1 : keyIdxDescRel key x y := (List.pairwise_cons.mp hs₁).1 y hy1
        have r2 : keyIdxDescRel key y x := (List.pairwise_cons.mp hs₂).1 x hx2
        have hidx : x.1 = y.1 := by
          unfold keyIdxDescRel at r1 r2
          omega
        have hmem : x.1 ∈ t₁.map Prod.fst :=
          hidx ▸ List.mem_map_of_mem Prod.fst hy1
        have hnd' : x.1 ∉ t₁.map Prod.fst := by
          simp only [List.map_cons, List.nodup_cons] at hnd
          exact hnd.1
        exact hnd' hmem
      subst hxy
      have hnd' : (t₁.map Prod.fst).Nodup := by
        simp only [List.map_cons, List.nodup_cons] at hnd
        exact hnd.2
      rw [ih t₂ hp.cons_inv (List.pairwise_cons.mp hs₁).2 (List.pairwise_cons.mp hs₂).2 hnd']

theorem mergeSort_decide_eq_stableDescSortOn (key : α → Nat) (l : List α) :
    l.mergeSort (fun a b => decide (key b ≤ key a)) = stableDescSortOn key l := by
  have htrans : ∀ a b c : α, (fun x y => decide (key y ≤ key x)) a b
      → (fun x y => decide (key y ≤ key x)) b c
      → (fun x y => decide (key y ≤ key x)) a c := by
    intro a b c hab hbc
    simp only [decide_eq_true_eq] at *
    omega
  have htotal : ∀ a b : α, ((fun x y => decide (key y ≤ key x)) a b
      || (fun x y => decide (key y ≤ key x)) b a) := by
    intro a b
    simp only [Bool.or_eq_true, decide_eq_true_eq]
    omega
  unfold stableDescSortOn
  rw [← List.mergeSort_enum]
  have huniq : List.mergeSort l.enum
        (List.enumLE fun x y => decide (key y ≤ key x))
      = l.enum.insertionSort (keyIdxDescRel key) := by
    apply eq_of_sorted_perm_nodup_idx key
    · exact (List.mergeSort_perm _ _).trans (List.perm_insertionSort _ _).symm
    · have hs := List.sorted_mergeSort (List.enumLE_trans htrans)
        (List.enumLE_total htotal) l.enum
      exact hs.imp fun h => (enumLE_iff_keyIdxDescRel key _ _).mp h
    · exact List.sorted_insertionSort (keyIdxDescRel key) l.enum
    · have hperm := (List.mergeSort_perm l.enum
        (List.enumLE fun x y => decide (key y ≤ key x))).map Prod.fst
      rw [hperm.nodup_iff, List.enum_map_fst]
      exact List.nodup_range _
  rw [huniq]

/-- C8: each top-repositories list in the summary is the first 10 entries of
the corresponding entry list under a stable descending sort — descending by
`period_clones` (resp. `total_clones`) with ties kept in the original batch
(resp. insertion) order, as captured by sorting index-tagged entries by
(key descending, original position ascending). -/
theorem c8_top_lists_stable_sorted (clone_data : List Report) (timestamp today : String)
    (cumulative_totals : List (String × RepoAgg))
    (daily_records : List (String × List (String × DayStats))) :
    (update_clone_summary clone_data timestamp today cumulative_totals
        daily_records).period_stats.top_repositories
      = (stableDescSortOn PeriodTopEntry.period_clones
          (clone_data.map fun r =>
            PeriodTopEntry.mk r.repo_name r.period_clones r.period_unique)).take 10
    ∧ (update_clone_summary clone_data timestamp today cumulative_totals
        daily_records).cumulative_stats.top_repositories
      = (stableDescSortOn CumTopEntry.total_clones
          (cumulative_totals.map fun p =>
            CumTopEntry.mk p.1 p.2.total_clones p.2.total_unique)).take 10 :=
  ⟨congrArg (List.take 10)
      (mergeSort_decide_eq_stableDescSortOn PeriodTopEntry.period_clones _),
    congrArg (List.take 10)
      (mergeSort_decide_eq_stableDescSortOn CumTopEntry.total_clones _)⟩
